import Mathlib

/-!
Verification development for the archive-decoding core of a7zip, a 7-Zip
compatible extraction library.  The repository's `src/` tree contains only
the binding-layer declaration header (`library/src/main/cpp/SevenZip.h`,
declaring `Initialize` and `OpenArchive`); the decoding core itself is not
under `src/`, so each operation below is modelled from the specification
(`spec.md`), and the library-loading precondition from the declarations in
`SevenZip.h`.
-/

namespace A7zip

/-- Modelled from the spec: the Integrity Verifier's CRC-32 (format's
standard polynomial, reflected, 0xEDB88320), one bit step of the
register update. -/
def crc32UpdateBit (c : Nat) : Nat :=
  if c % 2 = 1 then Nat.xor (c / 2) 0xEDB88320 else c / 2

/-- One byte step of the CRC-32 register update. -/
def crc32UpdateByte (c b : Nat) : Nat :=
  crc32UpdateBit^[8] (Nat.xor c (b % 256))

/-- CRC-32 register run over a byte list, starting from register `c`. -/
def crc32Aux (c : Nat) : List Nat → Nat
  | [] => c
  | b :: bs => crc32Aux (crc32UpdateByte c b) bs

/-- CRC-32 of a byte sequence (init 0xFFFFFFFF, final xor 0xFFFFFFFF). -/
def crc32 (bs : List Nat) : Nat :=
  Nat.xor (crc32Aux 0xFFFFFFFF bs) 0xFFFFFFFF

/-- Error taxonomy of the extraction path (spec section 7).  Wrong password is
not a constructor: the format cannot distinguish it from corruption. -/
inductive ExtractError where
  | UnsupportedCodec
  | PasswordRequired
  | Corrupt
  | IntegrityCrc
  | ShortRead
  | Closed
deriving DecidableEq, Repr

/-- Error taxonomy of Open (spec section 6; `NotInitialized` models the
binding header's requirement that the codec library be loaded first). -/
inductive OpenError where
  | BadSignature
  | Corrupt
  | PasswordRequired
  | NotInitialized
deriving DecidableEq, Repr

/-- Header Parser failure (spec section 4.2). -/
inductive HeaderError where
  | Corrupt
deriving DecidableEq, Repr

/-- Modelled from the spec: the Integrity Verifier's streaming state — the
not-yet-consumed suffix of the decoded sequence, the running CRC register,
and the entry's stored CRC if any (section 4.6). -/
structure VerifiedStream where
  rest : List Nat
  acc : Nat
  stored : Option Nat
deriving DecidableEq, Repr

/-- Wrap a decoded byte sequence with the Integrity Verifier. -/
def mkVerified (bytes : List Nat) (stored : Option Nat) : VerifiedStream :=
  ⟨bytes, 0xFFFFFFFF, stored⟩

/-- Modelled from the spec: one `read(n)` on a verified stream.  The stored
CRC is compared only at the point the last byte is consumed; a read of a
proper prefix never checks; an absent stored CRC makes verification a
no-op (section 4.6). -/
def vsRead (s : VerifiedStream) (n : Nat) :
    Except ExtractError (List Nat × VerifiedStream) :=
  if n < s.rest.length then
    .ok (s.rest.take n, ⟨s.rest.drop n, crc32Aux s.acc (s.rest.take n), s.stored⟩)
  else
    match s.stored with
    | none => .ok (s.rest, ⟨[], crc32Aux s.acc s.rest, none⟩)
    | some c =>
      if Nat.xor (crc32Aux s.acc s.rest) 0xFFFFFFFF = c then
        .ok (s.rest, ⟨[], crc32Aux s.acc s.rest, some c⟩)
      else
        .error .IntegrityCrc

/-- Modelled from the spec: the format's variable-length number decoding —
the leading byte's high bits select how many following bytes extend the
value (section 4.2).  `mask` walks 128, 64, …; `shift` is 8·i; a clear bit
at `mask` stops with the first byte's low bits as the high part. -/
def readNumberAux (first : Nat) : Nat → List Nat → Nat → Nat → Nat → Option (Nat × List Nat)
  | 0, bs, _, _, value => some (value, bs)
  | fuel + 1, bs, mask, shift, value =>
    if first / mask % 2 = 0 then
      some (value + first % mask * 2 ^ shift, bs)
    else
      match bs with
      | [] => none
      | b :: bs2 => readNumberAux first fuel bs2 (mask / 2) (shift + 8) (value + b % 256 * 2 ^ shift)

/-- Read one variable-length number from the front of a byte list. -/
def readNumber : List Nat → Option (Nat × List Nat)
  | [] => none
  | b :: bs => readNumberAux (b % 256) 8 bs 128 0 0

/-- The end-of-record-list property id (kEnd). -/
def kEnd : Nat := 0

/-- Property ids the parser interprets inside a files-info style container
(kEmptyStream, kEmptyFile, kAnti, kName, kCTime, kATime, kMTime,
kWinAttributes). -/
def knownPropertyIds : List Nat := [14, 15, 16, 17, 18, 19, 20, 21]

theorem readNumberAux_rest_le :
    ∀ (fuel first : Nat) (bs : List Nat) (mask shift value v : Nat) (rest : List Nat),
      readNumberAux first fuel bs mask shift value = some (v, rest) → rest.length ≤ bs.length := by
  intro fuel
  induction fuel with
  | zero =>
    intro first bs mask shift value v rest h
    simp only [readNumberAux, Option.some.injEq, Prod.mk.injEq] at h
    rw [← h.2]
  | succ fuel ih =>
    intro first bs mask shift value v rest h
    simp only [readNumberAux] at h
    split at h
    · simp only [Option.some.injEq, Prod.mk.injEq] at h
      rw [← h.2]
    · match bs, h with
      | b :: bs2, h =>
        exact (ih first bs2 (mask / 2) (shift + 8) _ v rest h).trans (Nat.le_succ _)

theorem readNumber_rest_lt {bs : List Nat} {v : Nat} {rest : List Nat}
    (h : readNumber bs = some (v, rest)) : rest.length < bs.length := by
  match bs, h with
  | b :: bs2, h =>
    have := readNumberAux_rest_le 8 (b % 256) bs2 128 0 0 v rest h
    simpa using Nat.lt_succ_of_le this

/-- Modelled from the spec: recursive-descent walk over property-tagged,
length-prefixed records (section 4.2).  Each record is an id, a
variable-length size, and `size` payload bytes; id `kEnd` terminates the
list; an unknown id is skipped via its length prefix (forward
compatibility); a truncated number or payload is `HeaderError.Corrupt`. -/
def parseProps (bs : List Nat) : Except HeaderError (List (Nat × List Nat)) :=
  match h1 : readNumber bs with
  | none => .error .Corrupt
  | some (id, rest) =>
    if id = kEnd then .ok []
    else
      match h2 : readNumber rest with
      | none => .error .Corrupt
      | some (size, rest2) =>
        if size ≤ rest2.length then
          match parseProps (rest2.drop size) with
          | .error e => .error e
          | .ok acc => .ok (if id ∈ knownPropertyIds then (id, rest2.take size) :: acc else acc)
        else .error .Corrupt
termination_by bs.length
decreasing_by
  have hl1 := readNumber_rest_lt h1
  have hl2 := readNumber_rest_lt h2
  have : (rest2.drop size).length ≤ rest2.length := by
    rw [List.length_drop]; omega
  omega

/-- Modelled from the spec: one filter-stage descriptor — method id,
property bytes and stream arity (section 3, Coder). -/
structure Coder where
  methodId : Nat
  numInStreams : Nat
  numOutStreams : Nat
  props : List Nat
deriving DecidableEq, Repr

/-- Modelled from the spec: an edge connecting one coder's output pin to
another coder's input pin; pins are globally numbered across the folder's
coders (section 3 and section 9). -/
structure BindPair where
  inIndex : Nat
  outIndex : Nat
deriving DecidableEq, Repr

/-- Modelled from the spec: a physical compressed unit — coders,
bind-pairs, the packed-stream index mapping for the external input pins,
the packed byte streams themselves, the total unpacked size and an
optional stored CRC-32 (section 3, Folder). -/
structure Folder where
  coders : List Coder
  bindPairs : List BindPair
  packedIndices : List Nat
  packedStreams : List (List Nat)
  unpackSize : Nat
  crc? : Option Nat
deriving DecidableEq, Repr

/-- The coder owning a global pin, given the per-coder arities. -/
def pinOwner : List Nat → Nat → Option Nat
  | [], _ => none
  | a :: as, pin => if pin < a then some 0 else (pinOwner as (pin - a)).map (· + 1)

/-- Per-coder input arities. -/
def inArities (f : Folder) : List Nat := f.coders.map (·.numInStreams)

/-- Per-coder output arities. -/
def outArities (f : Folder) : List Nat := f.coders.map (·.numOutStreams)

/-- Number of global output pins of a folder. -/
def totalOutputs (f : Folder) : Nat := (outArities f).sum

/-- The coder-level dependency edges induced by the bind-pairs: an edge
`(a, b)` says coder `a`'s output feeds one of coder `b`'s inputs. -/
def folderEdges (f : Folder) : List (Nat × Nat) :=
  f.bindPairs.filterMap (fun bp =>
    match pinOwner (outArities f) bp.outIndex, pinOwner (inArities f) bp.inIndex with
    | some a, some b => some (a, b)
    | _, _ => none)

/-- `r` has no incoming edge from a node still in `rem`. -/
def noIncoming (es : List (Nat × Nat)) (rem : List Nat) (r : Nat) : Bool :=
  !(es.any (fun e => e.2 == r && rem.contains e.1))

/-- Kahn's algorithm: repeatedly emit a remaining node with no incoming
edge from the remaining set; a cycle leaves no such node and fails. -/
def topoSortAux (es : List (Nat × Nat)) : Nat → List Nat → Option (List Nat)
  | 0, rem => if rem.isEmpty then some [] else none
  | fuel + 1, rem =>
    match rem.find? (noIncoming es rem) with
    | none => if rem.isEmpty then some [] else none
    | some r => (topoSortAux es fuel (rem.erase r)).map (r :: ·)

/-- Modelled from the spec: the dependency order in which `build_chain`
evaluates a folder's coders — a topological sort of the bind-pair DAG
(section 4.3); `none` when the graph has a cycle. -/
def buildChainOrder (f : Folder) : Option (List Nat) :=
  topoSortAux (folderEdges f) f.coders.length (List.range f.coders.length)

/-- Whether some bind-pair consumes global output pin `p`. -/
def boundOutput (f : Folder) (p : Nat) : Bool :=
  f.bindPairs.any (fun bp => bp.outIndex == p)

/-- The folder's output pins not consumed by any bind-pair; the folder's
decoded stream is its sole unbound output when the folder is valid. -/
def unboundOutputs (f : Folder) : List Nat :=
  (List.range (totalOutputs f)).filter (fun p => !(boundOutput f p))

/-- Modelled from the spec: structural validation of a folder at
index-build time — single-output coders, exactly one unbound output,
bind-pairs referencing existing pins, and an acyclic (topologically
sortable) bind-pair graph (sections 3 and 9). -/
def validFolder (f : Folder) : Bool :=
  f.coders.all (fun c => c.numOutStreams == 1) &&
  (unboundOutputs f).length == 1 &&
  f.bindPairs.all (fun bp =>
    (pinOwner (outArities f) bp.outIndex).isSome &&
    (pinOwner (inArities f) bp.inIndex).isSome) &&
  (buildChainOrder f).isSome

/-- A decoder implementation: property bytes, input streams, optional
password, producing decoded bytes or a per-entry error. -/
abbrev DecoderFn := List Nat → List (List Nat) → Option (List Nat) → Except ExtractError (List Nat)

/-- Method ids of the supported coders (7-Zip method ids). -/
def methodCopy : Nat := 0x00
/-- Delta filter method id. -/
def methodDelta : Nat := 0x03
/-- LZMA2 method id. -/
def methodLzma2 : Nat := 0x21
/-- LZMA method id. -/
def methodLzma : Nat := 0x030101
/-- BCJ x86 branch filter method id. -/
def methodBcjX86 : Nat := 0x03030103
/-- AES-256-CBC method id. -/
def methodAes : Nat := 0x06F10701

/-- Identity copy decoder (single input stream). -/
def copyDecode (inputs : List (List Nat)) : Except ExtractError (List Nat) :=
  match inputs with
  | [s] => .ok s
  | _ => .error .Corrupt

/-- Delta decode loop: `acc` holds the already-produced output most recent
first, so the byte at distance `dist` back is `acc.getD (dist - 1) 0`. -/
def deltaDecodeGo (dist : Nat) : List Nat → List Nat → List Nat
  | acc, [] => acc.reverse
  | acc, b :: bs => deltaDecodeGo dist ((b + acc.getD (dist - 1) 0) % 256 :: acc) bs

/-- Modelled from the spec: byte-wise delta decode with a configurable
distance taken from the property bytes (section 4.3). -/
def deltaDecode (props : List Nat) (inputs : List (List Nat)) : Except ExtractError (List Nat) :=
  match inputs with
  | [s] => .ok (deltaDecodeGo (props.headD 0 + 1) [] s)
  | _ => .error .Corrupt

/-- Modelled from the spec: the password-to-key derivation (the format's
salted iterated hash, section 4.3); the hash internals are not in `src/`
and are represented by an iterated CRC-32 over salt and password. -/
def deriveKey (password props : List Nat) : Nat :=
  crc32 (props ++ password)

/-- Modelled from the spec: AES-256-CBC decryption as a keyed byte
transform; the cipher internals are not in `src/`, and no claim depends on
the transform's values. -/
def aesTransform (key : Nat) (data : List Nat) : List Nat :=
  data.map (fun b => Nat.xor (b % 256) (key % 256))

/-- Modelled from the spec: the AES decoder requires a password; without
one it fails with `PasswordRequired` (section 4.3). -/
def aesDecode (props : List Nat) (inputs : List (List Nat)) (password : Option (List Nat)) :
    Except ExtractError (List Nat) :=
  match password with
  | none => .error .PasswordRequired
  | some pw =>
    match inputs with
    | [s] => .ok (aesTransform (deriveKey pw props) s)
    | _ => .error .Corrupt

/-- Modelled from the spec: the LZMA range decoder is not in `src/`; it is
represented as an opaque total byte transform (single input stream), and
no claim depends on its input/output values. -/
def lzmaDecode (inputs : List (List Nat)) : Except ExtractError (List Nat) :=
  copyDecode inputs

/-- Modelled from the spec: the closed method-id-to-decoder mapping
(section 9); an id outside the mapping is `UnsupportedCodec` at
chain-build time. -/
def decoderFor (m : Nat) : Option DecoderFn :=
  if m = methodCopy then some (fun _ inputs _ => copyDecode inputs)
  else if m = methodDelta then some (fun props inputs _ => deltaDecode props inputs)
  else if m = methodLzma then some (fun _ inputs _ => lzmaDecode inputs)
  else if m = methodLzma2 then some (fun _ inputs _ => lzmaDecode inputs)
  else if m = methodBcjX86 then some (fun _ inputs _ => lzmaDecode inputs)
  else if m = methodAes then some (fun props inputs pw => aesDecode props inputs pw)
  else none

/-- First global input pin of coder `i`. -/
def inPinStart (f : Folder) (i : Nat) : Nat := ((inArities f).take i).sum

/-- First global output pin of coder `i` (its single output pin for a
valid folder). -/
def outPinOf (f : Folder) (i : Nat) : Nat := ((outArities f).take i).sum

/-- The global input pins of coder `i`. -/
def inputPins (f : Folder) (i : Nat) : List Nat :=
  List.range' (inPinStart f i) ((inArities f).getD i 0)

/-- Modelled from the spec: resolve one input pin — a bound pin reads the
stream already produced at the bound output pin; an unbound (external) pin
reads the packed stream assigned to it by the packed-stream index mapping
(sections 4.2 and 4.3). -/
def gatherInput (f : Folder) (packed : List (List Nat)) (env : List (Nat × List Nat))
    (pin : Nat) : Except ExtractError (List Nat) :=
  match f.bindPairs.find? (fun bp => bp.inIndex == pin) with
  | some bp =>
    match env.lookup bp.outIndex with
    | some s => .ok s
    | none => .error .Corrupt
  | none =>
    match f.packedIndices.findIdx? (fun q => q == pin) with
    | some j =>
      match packed.get? j with
      | some s => .ok s
      | none => .error .ShortRead
    | none => .error .Corrupt

/-- Evaluate one coder: gather its inputs, dispatch on the method id, and
record the produced stream at the coder's output pin. -/
def stepCoder (f : Folder) (packed : List (List Nat)) (password : Option (List Nat))
    (env : List (Nat × List Nat)) (i : Nat) : Except ExtractError (List (Nat × List Nat)) :=
  match f.coders.get? i with
  | none => .error .Corrupt
  | some c =>
    match decoderFor c.methodId with
    | none => .error .UnsupportedCodec
    | some dec => do
      let inputs ← (inputPins f i).mapM (gatherInput f packed env)
      let out ← dec c.props inputs password
      pure ((outPinOf f i, out) :: env)

/-- Evaluate the folder's coders along the given order and return the
stream at the sole unbound output pin. -/
def decodeAlong (f : Folder) (packed : List (List Nat)) (password : Option (List Nat))
    (ord : List Nat) : Except ExtractError (List Nat) := do
  let env ← ord.foldlM (stepCoder f packed password) []
  match unboundOutputs f with
  | [p] =>
    match env.lookup p with
    | some s => .ok s
    | none => .error .Corrupt
  | _ => .error .Corrupt

/-- Whether the folder contains an AES coder (decryption stage). -/
def folderUsesAes (f : Folder) : Bool :=
  f.coders.any (fun c => c.methodId == methodAes)

/-- Modelled from the spec: `build_chain` plus the pull-style decode of a
whole folder — decryption without a supplied password is
`PasswordRequired`; an unsortable bind-pair graph is corrupt; otherwise
the coders are evaluated in the topological order of the bind-pair DAG
(section 4.3). -/
def decodeFolder (f : Folder) (packed : List (List Nat)) (password : Option (List Nat)) :
    Except ExtractError (List Nat) :=
  if folderUsesAes f && password.isNone then .error .PasswordRequired
  else
    match buildChainOrder f with
    | none => .error .Corrupt
    | some ord => decodeAlong f packed password ord

/-- Modelled from the spec: one logical file/directory record — name,
uncompressed size, attribute bitmask, directory flag, optional CRC-32,
and the (folder, offset) slice of that folder's decoded output; a `none`
folder index marks an empty-stream entry (sections 3 and 4.4). -/
structure Entry where
  name : List Nat
  size : Nat
  attrs : Nat
  isDir : Bool
  crc? : Option Nat
  folderIndex : Option Nat
  offset : Nat
deriving DecidableEq, Repr

/-- The structured content of a parsed header, before validation. -/
structure RawHeader where
  folders : List Folder
  entries : List Entry
deriving DecidableEq, Repr

/-- The validated, immutable entry index of an opened archive. -/
structure ArchiveIndex where
  folders : List Folder
  entries : List Entry
deriving DecidableEq, Repr

/-- Modelled from the spec: per-entry validation at index-build time — an
empty-stream entry has size zero, and a stored entry's offset plus size
fits inside its folder's total unpacked size (section 3, invariants). -/
def validEntry (folders : List Folder) (e : Entry) : Bool :=
  match e.folderIndex with
  | none => e.size == 0
  | some fi =>
    match folders.get? fi with
    | none => false
    | some f => decide (e.offset + e.size ≤ f.unpackSize)

/-- Modelled from the spec: index construction — every folder and every
entry is validated, and a violating archive is rejected as corrupt rather
than admitted into the index (sections 3, 4.2 and 9). -/
def buildIndex (raw : RawHeader) : Except HeaderError ArchiveIndex :=
  if raw.folders.all validFolder && raw.entries.all (validEntry raw.folders) then
    .ok ⟨raw.folders, raw.entries⟩
  else .error .Corrupt

/-- Session state: `closed`, or `opened` with the immutable index and the
password supplied at open time (section 4.5). -/
inductive SessionState where
  | closed
  | opened (idx : ArchiveIndex) (password : Option (List Nat))
deriving DecidableEq, Repr

/-- Modelled from the spec: the archive session — its state and whether it
still holds the input stream (section 4.5). -/
structure Session where
  state : SessionState
  streamHeld : Bool
deriving DecidableEq, Repr

/-- The released session: no index exposed, stream released. -/
def closedSession : Session := ⟨.closed, false⟩

/-- Modelled from the spec: `Close()` — valid from any state, releases the
stream and the index (section 4.5). -/
def close (_ : Session) : Session := closedSession

/-- Modelled from the spec: the listing API — index order as stored;
fails with `Closed` on a closed session (section 6). -/
def entries (s : Session) : Except ExtractError (List Entry) :=
  match s.state with
  | .closed => .error .Closed
  | .opened idx _ => .ok idx.entries

/-- Modelled from the spec: resolve an entry and decode it — an
empty-stream entry yields no bytes; otherwise the folder is decoded
through its codec chain, must produce exactly its declared unpacked size,
and the entry's slice is cut out of it (sections 4.3, 4.4 and 4.5). -/
def extractRaw (idx : ArchiveIndex) (password : Option (List Nat)) (e : Entry) :
    Except ExtractError (List Nat) :=
  match e.folderIndex with
  | none => .ok []
  | some fi =>
    match idx.folders.get? fi with
    | none => .error .Corrupt
    | some f =>
      match decodeFolder f f.packedStreams password with
      | .error err => .error err
      | .ok bytes =>
        if bytes.length = f.unpackSize then
          if e.offset + e.size ≤ bytes.length then
            .ok ((bytes.drop e.offset).take e.size)
          else .error .Corrupt
        else .error .ShortRead

/-- Modelled from the spec: `ExtractEntry` with its session effect — the
decode context is created, the full byte sequence is consumed through the
Integrity Verifier, and the context is discarded; the session itself is
returned unchanged whether the extraction succeeds or fails (sections
4.5, 4.6 and 7). -/
def extractEntryS (s : Session) (ei : Nat) : Except ExtractError (List Nat) × Session :=
  match s.state with
  | .closed => (.error .Closed, s)
  | .opened idx password =>
    match idx.entries.get? ei with
    | none => (.error .Corrupt, s)
    | some e =>
      match extractRaw idx password e with
      | .error err => (.error err, s)
      | .ok bytes =>
        match vsRead (mkVerified bytes e.crc?) bytes.length with
        | .error err => (.error err, s)
        | .ok (bs, _) => (.ok bs, s)

/-- The byte-sequence result of `ExtractEntry`. -/
def extractEntry (s : Session) (ei : Nat) : Except ExtractError (List Nat) :=
  (extractEntryS s ei).1

/-- The 7z signature bytes. -/
def k7zSignature : List Nat := [0x37, 0x7A, 0xBC, 0xAF, 0x27, 0x1C]

/-- Modelled from the spec: an archive input as seen by Open — its
signature bytes, whether its header is encrypted (needs a password to
parse), and the structured header content (sections 4.2 and 4.5). -/
structure ArchiveFile where
  signature : List Nat
  headerNeedsPassword : Bool
  raw : RawHeader
deriving DecidableEq, Repr

/-- Modelled from the spec: the Open state machine — read the signature,
parse and validate the header, and end `Open` holding the stream on
success, or `Closed` with the stream released on any failure (section
4.5).  The first component is the outcome, the second the session's final
state. -/
def openResult (file : ArchiveFile) (password : Option (List Nat)) :
    Except OpenError Unit × Session :=
  if file.signature ≠ k7zSignature then (.error .BadSignature, closedSession)
  else if file.headerNeedsPassword && password.isNone then
    (.error .PasswordRequired, closedSession)
  else
    match buildIndex file.raw with
    | .error _ => (.error .Corrupt, closedSession)
    | .ok idx => (.ok (), ⟨.opened idx password, true⟩)

/-- The Open API: the opened session on success, the error otherwise. -/
def openArchiveFile (file : ArchiveFile) (password : Option (List Nat)) :
    Except OpenError Session :=
  match openResult file password with
  | (.ok _, s) => .ok s
  | (.error e, _) => .error e

/-- Modelled from the spec and `SevenZip.h`: the binding library's global
state — the codec library loaded by `Initialize(library_name)`, or none
before any successful initialization. -/
structure LibState where
  loadedLibrary : Option (List Nat)
deriving DecidableEq, Repr

/-- Modelled from `SevenZip.h`: `Initialize(library_name)` loads the named
codec library (its implementation is not under `src/`). -/
def loadCodecLibrary (_ : LibState) (name : List Nat) : LibState :=
  ⟨some name⟩

/-- Modelled from `SevenZip.h`: `OpenArchive` — fails unless the codec
library has been loaded by a successful `Initialize`, and otherwise
behaves as the spec's Open (its implementation is not under `src/`). -/
def openArchive (st : LibState) (file : ArchiveFile) (password : Option (List Nat)) :
    Except OpenError Session :=
  match st.loadedLibrary with
  | none => .error .NotInitialized
  | some _ => openArchiveFile file password

/-- A stored (copy-codec) folder holding the bytes `[10, 20, 30]`. -/
def copyFolder : Folder :=
  { coders := [{ methodId := methodCopy, numInStreams := 1, numOutStreams := 1, props := [] }],
    bindPairs := [], packedIndices := [0], packedStreams := [[10, 20, 30]],
    unpackSize := 3, crc? := none }

/-- A structurally valid folder whose coder uses an unknown method id. -/
def badCodecFolder : Folder :=
  { coders := [{ methodId := 999, numInStreams := 1, numOutStreams := 1, props := [] }],
    bindPairs := [], packedIndices := [0], packedStreams := [[5]],
    unpackSize := 1, crc? := none }

/-- An AES-encrypted folder (password needed to decode). -/
def aesFolder : Folder :=
  { coders := [{ methodId := methodAes, numInStreams := 1, numOutStreams := 1, props := [7] }],
    bindPairs := [], packedIndices := [0], packedStreams := [[1, 2]],
    unpackSize := 2, crc? := none }

/-- A two-coder folder declared in anti-dependency order: coder 0 is a
delta filter whose input pin 0 is bound to coder 1's output pin 1; the
copy coder 1 reads the single packed stream on input pin 1. -/
def chainFolder : Folder :=
  { coders := [{ methodId := methodDelta, numInStreams := 1, numOutStreams := 1, props := [0] },
               { methodId := methodCopy, numInStreams := 1, numOutStreams := 1, props := [] }],
    bindPairs := [{ inIndex := 0, outIndex := 1 }],
    packedIndices := [1], packedStreams := [[1, 1]],
    unpackSize := 2, crc? := none }

/-- CRC-32 of `[10, 20, 30]`. -/
def sampleCrc : Nat := 645379826

/-- The entry stored in `copyFolder`. -/
def entry0 : Entry :=
  { name := [65], size := 3, attrs := 0, isDir := false,
    crc? := some sampleCrc, folderIndex := some 0, offset := 0 }

/-- The entry stored in `badCodecFolder`. -/
def entry1 : Entry :=
  { name := [66], size := 1, attrs := 0, isDir := false,
    crc? := none, folderIndex := some 1, offset := 0 }

/-- The entry stored in `aesFolder`. -/
def entry2 : Entry :=
  { name := [67], size := 2, attrs := 0, isDir := false,
    crc? := none, folderIndex := some 2, offset := 0 }

/-- A small three-folder archive used as a concrete test archive. -/
def sampleRaw : RawHeader :=
  { folders := [copyFolder, badCodecFolder, aesFolder],
    entries := [entry0, entry1, entry2] }

/-- The valid sample archive file. -/
def sampleFile : ArchiveFile :=
  { signature := k7zSignature, headerNeedsPassword := false, raw := sampleRaw }

/-- The index built from `sampleRaw`. -/
def sampleIndex : ArchiveIndex := ⟨sampleRaw.folders, sampleRaw.entries⟩

/-- The session produced by opening `sampleFile` without a password. -/
def sampleSession : Session := ⟨.opened sampleIndex none, true⟩

/-- An input whose signature is not the 7z signature. -/
def badSigFile : ArchiveFile :=
  { signature := [1], headerNeedsPassword := false, raw := sampleRaw }

theorem noIncoming_spec {es : List (Nat × Nat)} {rem : List Nat} {r : Nat}
    (h : noIncoming es rem r = true) :
    ∀ a b, (a, b) ∈ es → b = r → a ∉ rem := by
  intro a b hab hbr ha
  subst hbr
  simp only [noIncoming, Bool.not_eq_true', List.any_eq_false] at h
  have h2 := h (a, b) hab
  simp [ha] at h2

theorem topoSortAux_sound (es : List (Nat × Nat)) :
    ∀ (fuel : Nat) (rem ord : List Nat), topoSortAux es fuel rem = some ord →
      ord.Perm rem ∧
      ∀ a b, (a, b) ∈ es → a ∈ ord → b ∈ ord → ord.indexOf a < ord.indexOf b := by
  intro fuel
  induction fuel with
  | zero =>
    intro rem ord h
    simp only [topoSortAux] at h
    by_cases hemp : rem.isEmpty
    · rw [if_pos hemp] at h
      simp only [Option.some.injEq] at h
      subst h
      refine ⟨?_, ?_⟩
      · rw [List.isEmpty_iff.mp hemp]
      · intro a b _ ha _; simp at ha
    · rw [if_neg hemp] at h
      exact absurd h (by simp)
  | succ fuel ih =>
    intro rem ord h
    simp only [topoSortAux] at h
    split at h
    · by_cases hemp : rem.isEmpty
      · rw [if_pos hemp] at h
        simp only [Option.some.injEq] at h
        subst h
        refine ⟨?_, ?_⟩
        · rw [List.isEmpty_iff.mp hemp]
        · intro a b _ ha _; simp at ha
      · rw [if_neg hemp] at h
        exact absurd h (by simp)
    · rename_i r hfind
      cases hrec : topoSortAux es fuel (rem.erase r) with
      | none => rw [hrec] at h; simp at h
      | some ord' =>
        rw [hrec] at h
        simp only [Option.map_some', Option.some.injEq] at h
        subst h
        obtain ⟨hperm, hord⟩ := ih (rem.erase r) ord' hrec
        have hrmem : r ∈ rem := List.mem_of_find?_eq_some hfind
        have hno : noIncoming es rem r = true := List.find?_some hfind
        have hsub : ∀ x, x ∈ ord' → x ∈ rem := fun x hx =>
          List.mem_of_mem_erase (hperm.mem_iff.mp hx)
        refine ⟨(hperm.cons r).trans (List.perm_cons_erase hrmem).symm, ?_⟩
        intro a b hab ha hb
        by_cases hbr : b = r
        · exfalso
          subst hbr
          rcases List.mem_cons.mp ha with h1 | h1
          · subst h1; exact noIncoming_spec hno a a hab rfl hrmem
          · exact noIncoming_spec hno a b hab rfl (hsub a h1)
        · have hb' : b ∈ ord' := by
            rcases List.mem_cons.mp hb with h1 | h1
            · exact absurd h1 hbr
            · exact h1
          by_cases har : a = r
          · subst har
            rw [List.indexOf_cons_self, List.indexOf_cons_ne ord' (fun hh => hbr hh.symm)]
            exact Nat.succ_pos _
          · have ha' : a ∈ ord' := by
              rcases List.mem_cons.mp ha with h1 | h1
              · exact absurd h1 har
              · exact h1
            rw [List.indexOf_cons_ne ord' (fun hh => har hh.symm),
              List.indexOf_cons_ne ord' (fun hh => hbr hh.symm)]
            exact Nat.succ_lt_succ (hord a b hab ha' hb')

theorem readNumber_single {b : Nat} (bs : List Nat) (h : b < 128) :
    readNumber (b :: bs) = some (b, bs) := by
  have h256 : b < 256 := h.trans (by norm_num)
  simp [readNumber, readNumberAux, Nat.mod_eq_of_lt h256, Nat.div_eq_of_lt h,
    Nat.mod_eq_of_lt h]

theorem vsRead_full {bytes : List Nat} {stored : Option Nat} {bs : List Nat}
    {s' : VerifiedStream}
    (h : vsRead (mkVerified bytes stored) bytes.length = .ok (bs, s')) :
    bs = bytes ∧ ∀ c, stored = some c → crc32 bytes = c := by
  cases stored with
  | none =>
    simp only [vsRead, mkVerified, lt_self_iff_false, if_false, Except.ok.injEq,
      Prod.mk.injEq] at h
    exact ⟨h.1.symm, fun c hc => by cases hc⟩
  | some c =>
    simp only [vsRead, mkVerified, lt_self_iff_false, if_false] at h
    split at h
    · rename_i hcrc
      simp only [Except.ok.injEq, Prod.mk.injEq] at h
      refine ⟨h.1.symm, fun c' hc' => ?_⟩
      cases hc'
      exact hcrc
    · exact absurd h (by simp)

theorem extractEntryS_snd (s : Session) (ei : Nat) : (extractEntryS s ei).2 = s := by
  unfold extractEntryS
  split
  · rfl
  · split
    · rfl
    · split
      · rfl
      · split
        · rfl
        · rfl

theorem buildIndex_ok {raw : RawHeader} {idx : ArchiveIndex}
    (h : buildIndex raw = .ok idx) :
    idx = ⟨raw.folders, raw.entries⟩ ∧
    (∀ f ∈ raw.folders, validFolder f = true) ∧
    (∀ e ∈ raw.entries, validEntry raw.folders e = true) := by
  unfold buildIndex at h
  split at h
  · rename_i hc
    simp only [Bool.and_eq_true, List.all_eq_true] at hc
    simp only [Except.ok.injEq] at h
    exact ⟨h.symm, hc.1, hc.2⟩
  · exact absurd h (by simp)

theorem openResult_ok {file : ArchiveFile} {password : Option (List Nat)}
    (h : (openResult file password).1 = .ok ()) :
    ∃ idx, buildIndex file.raw = .ok idx ∧
      (openResult file password).2 = ⟨.opened idx password, true⟩ := by
  unfold openResult at h ⊢
  split at h
  · exact absurd h (by simp)
  · split at h
    · exact absurd h (by simp)
    · rename_i h1 h2
      cases hb : buildIndex file.raw with
      | error e => rw [hb] at h; simp at h
      | ok idx =>
        refine ⟨idx, rfl, ?_⟩
        rw [if_neg h1, if_neg h2]

theorem openArchiveFile_ok {file : ArchiveFile} {password : Option (List Nat)} {s : Session}
    (h : openArchiveFile file password = .ok s) :
    ∃ idx, buildIndex file.raw = .ok idx ∧ s = ⟨.opened idx password, true⟩ := by
  unfold openArchiveFile at h
  cases hr : openResult file password with
  | mk r fin =>
    rw [hr] at h
    cases r with
    | error e => simp at h
    | ok u =>
      cases u
      simp only [Except.ok.injEq] at h
      subst h
      obtain ⟨idx, hb, hfin⟩ := @openResult_ok file password (by rw [hr])
      refine ⟨idx, hb, ?_⟩
      rw [hr] at hfin
      exact hfin

theorem extractRaw_ok_length {idx : ArchiveIndex} {password : Option (List Nat)}
    {e : Entry} {bs : List Nat}
    (hv : validEntry idx.folders e = true)
    (h : extractRaw idx password e = .ok bs) : bs.length = e.size := by
  unfold extractRaw at h
  unfold validEntry at hv
  cases hfi : e.folderIndex with
  | none =>
    simp only [hfi, Except.ok.injEq] at h
    simp only [hfi, beq_iff_eq] at hv
    rw [← h, hv]
    rfl
  | some fi =>
    simp only [hfi] at h hv
    cases hf : idx.folders.get? fi with
    | none => simp only [hf] at h; exact absurd h (by simp)
    | some f =>
      simp only [hf] at h
      cases hd : decodeFolder f f.packedStreams password with
      | error err => simp only [hd] at h; exact absurd h (by simp)
      | ok bytes =>
        simp only [hd] at h
        split at h
        · split at h
          · rename_i hlen hle
            simp only [Except.ok.injEq] at h
            rw [← h, List.length_take, List.length_drop]
            omega
          · exact absurd h (by simp)
        · exact absurd h (by simp)

theorem extractEntry_ok_crc {idx : ArchiveIndex} {password : Option (List Nat)} {held : Bool}
    {ei : Nat} {e : Entry} {bs : List Nat}
    (he : idx.entries.get? ei = some e)
    (h : extractEntry ⟨.opened idx password, held⟩ ei = .ok bs) :
    extractRaw idx password e = .ok bs ∧ ∀ c, e.crc? = some c → crc32 bs = c := by
  unfold extractEntry extractEntryS at h
  simp only [he] at h
  cases hraw : extractRaw idx password e with
  | error err => simp only [hraw] at h; exact absurd h (by simp)
  | ok bytes =>
    simp only [hraw] at h
    cases hv : vsRead (mkVerified bytes e.crc?) bytes.length with
    | error err => simp only [hv] at h; exact absurd h (by simp)
    | ok pr =>
      obtain ⟨bs', s'⟩ := pr
      simp only [hv, Except.ok.injEq] at h
      subst h
      obtain ⟨hbs, hcrc⟩ := vsRead_full hv
      subst hbs
      exact ⟨rfl, hcrc⟩

theorem validFolder_parts {f : Folder} (h : validFolder f = true) :
    (unboundOutputs f).length = 1 ∧ ∃ ord, buildChainOrder f = some ord := by
  simp only [validFolder, Bool.and_eq_true, beq_iff_eq, Option.isSome_iff_exists] at h
  exact ⟨h.1.1.2, h.2⟩

/-- C6: Close is valid in every session state and idempotent — closing
twice leaves the session exactly as closing once (stream and index
released), and after Close both listing and extraction fail with
`Closed`. -/
theorem close_idempotent_and_blocks (s : Session) :
    close (close s) = close s ∧
    (close s).state = .closed ∧
    (close s).streamHeld = false ∧
    entries (close s) = .error .Closed ∧
    ∀ ei, extractEntry (close s) ei = .error .Closed := by
  exact ⟨rfl, rfl, rfl, rfl, fun _ => rfl⟩

/-- C10: OpenArchive can succeed only after Initialize — on a library
state with no loaded codec library, `openArchive` always fails with
`NotInitialized`, and after loading the library it behaves exactly as the
spec's Open. -/
theorem open_requires_library_load (st : LibState) (name : List Nat)
    (file : ArchiveFile) (password : Option (List Nat)) :
    openArchive ⟨none⟩ file password = .error .NotInitialized ∧
    openArchive (loadCodecLibrary st name) file password = openArchiveFile file password :=
  ⟨rfl, rfl⟩

/-- C3: the Integrity Verifier raises `IntegrityError.Crc` exactly when
the read consumes the last byte of the decoded sequence, a CRC is stored,
and the accumulated CRC differs from it — so a proper-prefix read never
fails and an absent stored CRC makes verification a no-op. -/
theorem integrity_error_at_last_byte_iff (bytes : List Nat) (stored : Option Nat) (n : Nat) :
    vsRead (mkVerified bytes stored) n = .error .IntegrityCrc ↔
      bytes.length ≤ n ∧ ∃ c, stored = some c ∧ crc32 bytes ≠ c := by
  constructor
  · intro h
    by_cases hn : n < bytes.length
    · simp only [vsRead, mkVerified, hn, if_true] at h
      exact absurd h (by simp)
    · refine ⟨Nat.le_of_not_lt hn, ?_⟩
      cases hst : stored with
      | none =>
        simp only [vsRead, mkVerified, hst, if_neg hn] at h
        exact absurd h (by simp)
      | some c =>
        refine ⟨c, rfl, ?_⟩
        intro hcrc
        simp only [crc32] at hcrc
        simp only [vsRead, mkVerified, hst, if_neg hn] at h
        rw [if_pos hcrc] at h
        exact absurd h (by simp)
  · rintro ⟨hle, c, hst, hcrc⟩
    subst hst
    simp only [crc32] at hcrc
    simp only [vsRead, mkVerified, if_neg (Nat.not_lt.mpr hle)]
    rw [if_neg hcrc]

/-- C5: a per-entry extraction failure (unsupported codec, integrity
mismatch) is scoped to that extraction — the session comes back unchanged
(handle valid, index untouched) and every other entry extracts exactly as
before. -/
theorem extract_error_scoped (s : Session) (ei : Nat) (err : ExtractError)
    (h : extractEntry s ei = .error err)
    (herr : err = .UnsupportedCodec ∨ err = .IntegrityCrc) :
    (extractEntryS s ei).2 = s ∧
    ∀ ej, extractEntry (extractEntryS s ei).2 ej = extractEntry s ej := by
  refine ⟨extractEntryS_snd s ei, fun ej => ?_⟩
  rw [extractEntryS_snd s ei]

/-- Witness for C5 at the sample archive: entry 1 fails with
`UnsupportedCodec` and entry 0 is unaffected. -/
theorem extract_error_scoped_witness :
    (extractEntryS sampleSession 1).2 = sampleSession ∧
    extractEntry (extractEntryS sampleSession 1).2 0 = extractEntry sampleSession 0 := by
  have t := extract_error_scoped sampleSession 1 .UnsupportedCodec (by rfl) (Or.inl rfl)
  exact ⟨t.1, t.2 0⟩

/-- C2: Open is atomic with respect to failure — whenever signature
reading or header parsing fails, Open returns that error, the session
ends in the `closed` state with the stream released (so no partial entry
index is exposed), and the listing API on the resulting session fails
with `Closed`. -/
theorem open_failure_atomic (file : ArchiveFile) (password : Option (List Nat))
    (e : OpenError) (h : (openResult file password).1 = .error e) :
    (openResult file password).2 = closedSession ∧
    (openResult file password).2.state = .closed ∧
    (openResult file password).2.streamHeld = false ∧
    openArchiveFile file password = .error e ∧
    entries (openResult file password).2 = .error .Closed := by
  unfold openResult at h ⊢
  unfold openArchiveFile openResult
  split at h
  · rename_i h1
    rw [if_pos h1]
    simp only [Except.error.injEq] at h
    subst h
    exact ⟨rfl, rfl, rfl, rfl, rfl⟩
  · rename_i h1
    rw [if_neg h1]
    split at h
    · rename_i h2
      rw [if_pos h2]
      simp only [Except.error.injEq] at h
      subst h
      exact ⟨rfl, rfl, rfl, rfl, rfl⟩
    · rename_i h2
      rw [if_neg h2]
      cases hb : buildIndex file.raw with
      | error e2 =>
        simp only [hb] at h ⊢
        simp only [Except.error.injEq] at h
        subst h
        refine ⟨?_, ?_, ?_, ?_, ?_⟩ <;> trivial
      | ok idx =>
        simp only [hb] at h
        exact absurd h (by simp)

/-- Witness for C2: an input with a bad signature is rejected and the
session ends closed with the stream released. -/
theorem open_failure_atomic_witness :
    (openResult badSigFile none).2 = closedSession ∧
    openArchiveFile badSigFile none = .error .BadSignature := by
  have t := open_failure_atomic badSigFile none .BadSignature (by rfl)
  exact ⟨t.1, t.2.2.2.1⟩

/-- C7: in a successfully built index every folder's bind-pair graph has
exactly one unbound output (the folder's decoded stream) and admits a
topological order covering all its coders and respecting every bind-pair
edge — i.e. it is a single-rooted acyclic graph, validated at index-build
time; a violating archive is rejected by `buildIndex`. -/
theorem built_index_folders_acyclic_single_root (raw : RawHeader) (idx : ArchiveIndex)
    (h : buildIndex raw = .ok idx) :
    ∀ f ∈ idx.folders, (unboundOutputs f).length = 1 ∧
      ∃ ord, buildChainOrder f = some ord ∧
        ord.Perm (List.range f.coders.length) ∧
        ∀ a b, (a, b) ∈ folderEdges f → a ∈ ord → b ∈ ord →
          ord.indexOf a < ord.indexOf b := by
  intro f hf
  obtain ⟨hidx, hfolders, _⟩ := buildIndex_ok h
  have hvf : validFolder f = true := by
    apply hfolders
    rw [hidx] at hf
    exact hf
  obtain ⟨hone, ord, hord⟩ := validFolder_parts hvf
  obtain ⟨hperm, hresp⟩ := topoSortAux_sound (folderEdges f) f.coders.length
    (List.range f.coders.length) ord hord
  exact ⟨hone, ord, hord, hperm, hresp⟩

/-- Witness for C7 at the sample archive's copy folder. -/
theorem built_index_folders_acyclic_single_root_witness :
    (unboundOutputs copyFolder).length = 1 := by
  have t := built_index_folders_acyclic_single_root sampleRaw sampleIndex (by rfl)
    copyFolder (by simp [sampleRaw, sampleIndex])
  exact t.1

/-- C8: the coder evaluation order produced by `buildChainOrder` for a
folder's codec chain covers every coder and respects the bind-pair DAG —
each producing coder is evaluated before the coder whose declared input
pin its output is bound to — and `decodeFolder` evaluates the chain along
exactly that order (not coder-declaration order) whenever decoding is not
refused for a missing password. -/
theorem chain_order_topological (f : Folder) (ord : List Nat)
    (h : buildChainOrder f = some ord) :
    ord.Perm (List.range f.coders.length) ∧
    (∀ a b, (a, b) ∈ folderEdges f → a ∈ ord → b ∈ ord →
      ord.indexOf a < ord.indexOf b) ∧
    ∀ packed password, (folderUsesAes f && password.isNone) = false →
      decodeFolder f packed password = decodeAlong f packed password ord := by
  obtain ⟨hperm, hresp⟩ := topoSortAux_sound (folderEdges f) f.coders.length
    (List.range f.coders.length) ord h
  refine ⟨hperm, hresp, fun packed password hpw => ?_⟩
  unfold decodeFolder
  rw [if_neg (by rw [hpw]; simp), h]

/-- Witness for C8 at the two-coder sample folder, whose dependency order
`[1, 0]` is the reverse of its declaration order. -/
theorem chain_order_topological_witness :
    ([1, 0] : List Nat).Perm (List.range chainFolder.coders.length) ∧
    decodeFolder chainFolder [[1, 1]] none = decodeAlong chainFolder [[1, 1]] none [1, 0] := by
  have t := chain_order_topological chainFolder [1, 0] (by rfl)
  exact ⟨t.1, t.2.2 [[1, 1]] none (by rfl)⟩

/-- C1: for every validly opened archive, the listing returns every
stored entry in index order, and every entry extraction that completes
yields exactly `size` (the entry's uncompressed size) bytes. -/
theorem entries_complete_extract_sized (file : ArchiveFile) (password : Option (List Nat))
    (s : Session) (hopen : openArchiveFile file password = .ok s) :
    entries s = .ok file.raw.entries ∧
    ∀ ei e bs, file.raw.entries.get? ei = some e → extractEntry s ei = .ok bs →
      bs.length = e.size := by
  obtain ⟨idx, hb, hs⟩ := openArchiveFile_ok hopen
  obtain ⟨hidx, _, hentries⟩ := buildIndex_ok hb
  subst hs
  subst hidx
  refine ⟨rfl, fun ei e bs he hex => ?_⟩
  obtain ⟨hraw, _⟩ := @extractEntry_ok_crc ⟨file.raw.folders, file.raw.entries⟩ password true ei e bs he hex
  have hv : validEntry file.raw.folders e = true :=
    hentries e (List.get?_mem he)
  exact extractRaw_ok_length hv hraw

/-- Witness for C1 at the sample archive: opening succeeds, the listing
is the stored entry list, and entry 0 decodes to its declared 3 bytes. -/
theorem entries_complete_extract_sized_witness :
    entries sampleSession = .ok sampleFile.raw.entries ∧
    ([10, 20, 30] : List Nat).length = entry0.size := by
  have t := entries_complete_extract_sized sampleFile none sampleSession (by rfl)
  exact ⟨t.1, t.2 0 entry0 [10, 20, 30] (by rfl) (by rfl)⟩

/-- C4: an incorrect password can never surface wrong decoded data as a
success when a CRC is stored — a successful extraction's bytes always
match the stored CRC, and decryption attempted with no password at all
fails with the `PasswordRequired` outcome; the error taxonomy
(`ExtractError`) has no wrong-password code distinct from corruption. -/
theorem wrong_password_never_silent (idx : ArchiveIndex) (password : Option (List Nat))
    (held : Bool) (ei : Nat) (e : Entry)
    (he : idx.entries.get? ei = some e) :
    (∀ c bs, e.crc? = some c →
      extractEntry ⟨.opened idx password, held⟩ ei = .ok bs → crc32 bs = c) ∧
    (∀ fi f, password = none → e.folderIndex = some fi → idx.folders.get? fi = some f →
      folderUsesAes f = true →
      extractEntry ⟨.opened idx password, held⟩ ei = .error .PasswordRequired) := by
  constructor
  · intro c bs hc hex
    exact (extractEntry_ok_crc he hex).2 c hc
  · intro fi f hpw hfi hf haes
    subst hpw
    unfold extractEntry extractEntryS
    simp only [he]
    have hraw : extractRaw idx none e = .error .PasswordRequired := by
      unfold extractRaw
      simp only [hfi, hf]
      have : decodeFolder f f.packedStreams none = .error .PasswordRequired := by
        unfold decodeFolder
        rw [if_pos (by simp [haes])]
      simp only [this]
    simp only [hraw]

/-- Witness for C4: entry 0's successful extraction matches its stored
CRC, and the AES entry 2 without a password yields `PasswordRequired`. -/
theorem wrong_password_never_silent_witness :
    crc32 [10, 20, 30] = sampleCrc ∧
    extractEntry sampleSession 2 = .error .PasswordRequired := by
  have t0 := wrong_password_never_silent sampleIndex none true 0 entry0 (by rfl)
  have t2 := wrong_password_never_silent sampleIndex none true 2 entry2 (by rfl)
  exact ⟨t0.1 sampleCrc [10, 20, 30] rfl (by rfl),
         t2.2 2 aesFolder rfl rfl (by rfl) (by rfl)⟩

/-- C9: a record whose property id the parser does not recognize is
skipped through its embedded length prefix and parsing continues with the
remaining records exactly as if the unknown record were absent. -/
theorem unknown_property_id_skipped (u size : Nat) (data rest : List Nat)
    (hu : u < 128) (hu0 : u ≠ kEnd) (hku : u ∉ knownPropertyIds)
    (hs : size < 128) (hd : data.length = size) :
    parseProps (u :: size :: (data ++ rest)) = parseProps rest := by
  rw [parseProps.eq_def]
  split
  · rename_i h1
    rw [readNumber_single _ hu] at h1
    exact absurd h1 (by simp)
  · rename_i id rest1 h1
    rw [readNumber_single _ hu] at h1
    simp only [Option.some.injEq, Prod.mk.injEq] at h1
    obtain ⟨hid, hrest1⟩ := h1
    subst hid
    subst hrest1
    rw [if_neg hu0]
    split
    · rename_i h2
      rw [readNumber_single _ hs] at h2
      exact absurd h2 (by simp)
    · rename_i sz rest2 h2
      rw [readNumber_single _ hs] at h2
      simp only [Option.some.injEq, Prod.mk.injEq] at h2
      obtain ⟨hsz, hrest2⟩ := h2
      subst hsz
      subst hrest2
      rw [if_pos (by rw [← hd]; simp)]
      have hdrop : (data ++ rest).drop size = rest := by
        rw [← hd]
        exact List.drop_left data rest
      have htake : (data ++ rest).take size = data := by
        rw [← hd]
        exact List.take_left data rest
      rw [hdrop, htake]
      cases hp : parseProps rest with
      | error e => rfl
      | ok acc => simp [hku]

/-- Witness for C9: an unknown id 99 with a two-byte payload is skipped
and parsing continues at the end marker. -/
theorem unknown_property_id_skipped_witness :
    parseProps (99 :: 2 :: ([7, 7] ++ [0])) = parseProps [0] :=
  unknown_property_id_skipped 99 2 [7, 7] [0] (by decide) (by decide) (by decide)
    (by decide) (by decide)

end A7zip
